import Mathlib

/-!
Shallow embedding of the daily market-breadth pipeline (src/analysis.py).

The script downloads Taiwanese stock closes month by month (each month a
fallible fetch unit), concatenates the successful partial tables, removes
exact-duplicate rows, pivots to a date × stock_id wide matrix, drops
all-empty columns, applies a minimum-coverage gate (at least 100 columns),
forward-fills, computes rolling 200-day max/min with min_periods 150,
counts new highs (close ≥ rolling max) and new lows (close ≤ rolling min)
per day, and derives a last-10-days reporting table with the high/low
ratio (round(h/l*100), sentinel 999 when lows = 0).

Dates are modelled as naturals (their order is all that matters), prices
as rationals, missing cells as `none`.  Instrument identifiers are opaque
in the source (numeric ticker codes held as strings); they are modelled
as naturals so that every definition stays kernel-evaluable.
-/

set_option maxRecDepth 4000

namespace DailyBreadth

/-- Instrument identifier (the numeric ticker code). -/
abbrev StockId := Nat

/-- Deduplication keeping first occurrences, as pandas `drop_duplicates`
does: `seen` accumulates the elements already emitted. -/
def dropDupsAux {α : Type} [DecidableEq α] : List α → List α → List α
  | [], _ => []
  | x :: rest, seen =>
    if x ∈ seen then dropDupsAux rest seen else x :: dropDupsAux rest (x :: seen)

/-- `big_df.drop_duplicates()` — full-row equality, first occurrence kept. -/
def dropDuplicates {α : Type} [DecidableEq α] (l : List α) : List α :=
  dropDupsAux l []

/-- One long-form price observation: a row of `big_df` after the
projection to `['date', 'stock_id', 'close']`. -/
structure Obs where
  date : Nat
  stock_id : StockId
  close : Rat
deriving DecidableEq, Repr

/-- The pivoted wide table: a sorted date index, a sorted column index,
and row-major cells (one inner list per date, one entry per column). -/
structure WideMatrix where
  dates : List Nat
  cols : List StockId
  cells : List (List (Option Rat))
deriving DecidableEq, Repr

/-- `pivot` raises `ValueError` when, after `drop_duplicates`, the same
(date, stock_id) pair still appears twice — i.e. with two different
closes. -/
def hasConflict (l : List Obs) : Bool :=
  l.any fun o => l.any fun p =>
    o.date == p.date && o.stock_id == p.stock_id && o.close != p.close

/-- The close recorded for a (date, stock_id) pair, if any. -/
def lookupClose (l : List Obs) (d : Nat) (s : StockId) : Option Rat :=
  (l.find? fun o => o.date == d && o.stock_id == s).map (·.close)

/-- The sorted unique keys of a pivot axis (pandas sorts both the date
index and the columns). -/
def sortedKeys (l : List Nat) : List Nat :=
  List.insertionSort (· ≤ ·) (dropDuplicates l)

/-- `big_df.drop_duplicates()` followed by
`big_df.pivot(index='date', columns='stock_id', values='close')` and the
index coercion to dates; `none` models the `ValueError` that a duplicated
(date, stock_id) pair raises. -/
def pivotTable (l : List Obs) : Option WideMatrix :=
  let dd := dropDuplicates l
  if hasConflict dd then none
  else
    let ds := sortedKeys (dd.map (·.date))
    let cs := sortedKeys (dd.map (·.stock_id))
    some ⟨ds, cs, ds.map fun d => cs.map fun s => lookupClose dd d s⟩

/-- Outcome of one monthly fetch unit: a partial long-form table, or a
failure (timeout, malformed payload — anything the `except` catches). -/
inductive FetchResult where
  | success (rows : List Obs)
  | failure
deriving DecidableEq, Repr

/-- The body of the month loop: a failing unit contributes nothing, an
empty response is logged and skipped, a non-empty response is filtered to
the target universe and appended to `all_dfs`. -/
def unitContribution (univ : List StockId) : FetchResult → Option (List Obs)
  | .failure => none
  | .success rows =>
    if rows.isEmpty then none
    else some (rows.filter fun o => univ.contains o.stock_id)

/-- `pd.DataFrame()` — what `download_by_month` returns when every unit
failed. -/
def emptyMatrix : WideMatrix := ⟨[], [], []⟩

/-- `download_by_month`: run the month loop over the planned units,
accumulate the successful partial tables, and merge/pivot them. -/
def download_by_month (univ : List StockId) (results : List FetchResult) :
    Option WideMatrix :=
  let all_dfs := results.filterMap (unitContribution univ)
  if all_dfs.isEmpty then some emptyMatrix
  else pivotTable all_dfs.flatten

/-- `df_close.dropna(axis=1, how='all')` — keep only the columns having
at least one observation. -/
def dropEmptyCols (M : WideMatrix) : WideMatrix :=
  let keep : List Nat := (List.range M.cols.length).filter fun j =>
    M.cells.any fun row => (row.getD j none).isSome
  ⟨M.dates, keep.map fun j => M.cols.getD j 0,
    M.cells.map fun row => keep.map fun j => row.getD j none⟩

/-- Forward fill of one column, carrying the last seen value; leading
missing cells stay missing. -/
def ffillAux : Option Rat → List (Option Rat) → List (Option Rat)
  | _, [] => []
  | last, none :: rest => last :: ffillAux last rest
  | _, some v :: rest => some v :: ffillAux (some v) rest

/-- `df_close.ffill()` on one instrument column. -/
def ffillSeries (s : List (Option Rat)) : List (Option Rat) := ffillAux none s

/-- `window = 200`. -/
def window : Nat := 200

/-- The non-missing values inside the trailing 200-entry window ending at
position `t` (truncated at the start of the series, as pandas does). -/
def windowVals (s : List (Option Rat)) (t : Nat) : List Rat :=
  ((s.take (t + 1)).drop (t + 1 - window)).filterMap id

/-- `df_close.rolling(window=window, min_periods=150).max()` at one cell:
defined only once the window holds at least 150 observations. -/
def rolling_max (s : List (Option Rat)) (t : Nat) : Option Rat :=
  if 150 ≤ (windowVals s t).length then (windowVals s t).max? else none

/-- `df_close.rolling(window=window, min_periods=150).min()` at one cell. -/
def rolling_min (s : List (Option Rat)) (t : Nat) : Option Rat :=
  if 150 ≤ (windowVals s t).length then (windowVals s t).min? else none

/-- `(df_close >= rolling_max)` at one cell; a comparison against NaN is
False in pandas, so an undefined close or window yields `false`. -/
def is_new_high (s : List (Option Rat)) (t : Nat) : Bool :=
  match s.getD t none, rolling_max s t with
  | some c, some m => decide (m ≤ c)
  | _, _ => false

/-- `(df_close <= rolling_min)` at one cell. -/
def is_new_low (s : List (Option Rat)) (t : Nat) : Bool :=
  match s.getD t none, rolling_min s t with
  | some c, some m => decide (c ≤ m)
  | _, _ => false

/-- One row of the `market_breadth` frame: the daily counts plus the
benchmark close reindexed onto the same date (missing when the benchmark
has no value for that date). -/
structure BreadthRow where
  date : Nat
  newHighs : Nat
  newLows : Nat
  taiex : Option Rat
deriving DecidableEq, Repr

/-- The instrument columns of the matrix, as date-indexed series. -/
def colSeriesList (M : WideMatrix) : List (List (Option Rat)) :=
  (List.range M.cols.length).map fun j => M.cells.map fun row => row.getD j none

/-- The `market_breadth` frame: per trading date, the sum over columns of
the new-high and new-low booleans, plus the reindexed benchmark.  The
subsequent `dropna(subset=['New_Highs', 'New_Lows'])` removes nothing,
because a sum of booleans is integer-valued on every row. -/
def market_breadth (M : WideMatrix) (taiex : List (Nat × Rat)) : List BreadthRow :=
  let fcols := (colSeriesList M).map ffillSeries
  M.dates.enum.map fun p =>
    { date := p.2
      newHighs := (fcols.map fun s => is_new_high s p.1).count true
      newLows := (fcols.map fun s => is_new_low s p.1).count true
      taiex := (taiex.find? fun q => q.1 == p.2).map (·.2) }

/-- Python's `round`: round half to even. -/
def pythonRound (q : Rat) : Int :=
  let n := ⌊q⌋
  let frac := q - n
  if frac < 1 / 2 then n
  else if 1 / 2 < frac then n + 1
  else if n % 2 = 0 then n else n + 1

/-- The `Ratio` lambda of the reporting table:
`round((New_Highs / New_Lows) * 100) if New_Lows > 0 else 999`. -/
def ratioOf (highs lows : Nat) : Int :=
  if 0 < lows then pythonRound ((highs : Rat) / (lows : Rat) * 100) else 999

/-- One displayed row of the reporting table. -/
structure TableRow where
  date : Nat
  highs : Nat
  lows : Nat
  ratio : Int
deriving DecidableEq, Repr

/-- `iloc[-n:]` — the trailing slice of at most `n` rows. -/
def lastN {α : Type} (n : Nat) (l : List α) : List α := l.drop (l.length - n)

/-- `table_df`: the last 10 breadth rows with the derived ratio, re-sorted
into descending date order for display. -/
def mkTable (rows : List BreadthRow) : List TableRow :=
  ((lastN 10 rows).map fun r =>
    ⟨r.date, r.newHighs, r.newLows, ratioOf r.newHighs r.newLows⟩).reverse

/-- The terminal conditions of the run (`exit()` sites). -/
inductive PipelineError where
  | downloadError
  | insufficientCoverage
  | emptyDerivedSeries
deriving DecidableEq, Repr

/-- The whole run: download and assemble, drop empty columns, apply the
coverage gate (`df_close.shape[1] < 100`), compute the breadth frame, and
stop if the plotting slice is empty; otherwise emit the breadth rows and
the reporting table. -/
def runPipeline (univ : List StockId) (results : List FetchResult)
    (taiex : List (Nat × Rat)) : Except PipelineError (List BreadthRow × List TableRow) :=
  match download_by_month univ results with
  | none => .error .downloadError
  | some M0 =>
    let M := dropEmptyCols M0
    if M.cols.length < 100 then .error .insufficientCoverage
    else
      let mb := market_breadth M taiex
      if (lastN 120 mb).isEmpty then .error .emptyDerivedSeries
      else .ok (mb, mkTable mb)

/-- The cell of the wide matrix at a (date, stock_id) pair, looked up
through the row and column indices. -/
def cellAt (M : WideMatrix) (d : Nat) (s : StockId) : Option Rat :=
  match (M.dates.zip M.cells).find? (fun p => p.1 == d) with
  | none => none
  | some p =>
    match (M.cols.zip p.2).find? (fun q => q.1 == s) with
    | none => none
    | some q => q.2

/-- The Matrix Assembler end to end: dedup, pivot, index coercion, and
the drop of all-empty columns. -/
def assembleFull (l : List Obs) : Option WideMatrix :=
  (pivotTable l).map dropEmptyCols

instance {e a : Type} [DecidableEq e] [DecidableEq a] : DecidableEq (Except e a) := fun x y =>
  match x, y with
  | .error u, .error v =>
    if h : u = v then isTrue (congrArg Except.error h)
    else isFalse fun hh => h (Except.error.inj hh)
  | .ok u, .ok v =>
    if h : u = v then isTrue (congrArg Except.ok h)
    else isFalse fun hh => h (Except.ok.inj hh)
  | .error _, .ok _ => isFalse fun hh => Except.noConfusion hh
  | .ok _, .error _ => isFalse fun hh => Except.noConfusion hh

/-! ### Properties of the deduplication pass -/

theorem mem_dropDupsAux {α : Type} [DecidableEq α] (l : List α) :
    ∀ (seen : List α) (x : α), x ∈ dropDupsAux l seen ↔ x ∈ l ∧ x ∉ seen := by
  induction l with
  | nil => intro seen x; simp [dropDupsAux]
  | cons y rest ih =>
    intro seen x
    by_cases hy : y ∈ seen
    · rw [dropDupsAux, if_pos hy, ih]
      constructor
      · rintro ⟨hx, hxs⟩; exact ⟨List.mem_cons_of_mem _ hx, hxs⟩
      · rintro ⟨hx, hxs⟩
        rcases List.mem_cons.mp hx with rfl | hx
        · exact absurd hy hxs
        · exact ⟨hx, hxs⟩
    · rw [dropDupsAux, if_neg hy]
      by_cases hxy : x = y
      · subst hxy
        simp [hy]
      · rw [List.mem_cons]
        constructor
        · rintro (rfl | hmem)
          · exact absurd rfl hxy
          · rcases (ih _ _).mp hmem with ⟨hx, hxs⟩
            refine ⟨List.mem_cons_of_mem _ hx, fun hc => hxs (List.mem_cons_of_mem _ hc)⟩
        · rintro ⟨hx, hxs⟩
          rcases List.mem_cons.mp hx with rfl | hx
          · exact absurd rfl hxy
          · exact Or.inr ((ih _ _).mpr ⟨hx, fun hc => by
              rcases List.mem_cons.mp hc with rfl | hc
              · exact hxy rfl
              · exact hxs hc⟩)

theorem nodup_dropDupsAux {α : Type} [DecidableEq α] (l : List α) :
    ∀ seen : List α, (dropDupsAux l seen).Nodup := by
  induction l with
  | nil => intro seen; simp [dropDupsAux]
  | cons y rest ih =>
    intro seen
    rw [dropDupsAux]
    split
    · exact ih _
    · refine List.nodup_cons.mpr ⟨fun hmem => ?_, ih _⟩
      exact ((mem_dropDupsAux _ _ _).mp hmem).2 (List.mem_cons_self _ _)

theorem mem_dropDuplicates {α : Type} [DecidableEq α] (l : List α) (x : α) :
    x ∈ dropDuplicates l ↔ x ∈ l := by
  rw [dropDuplicates, mem_dropDupsAux]
  simp

theorem nodup_dropDuplicates {α : Type} [DecidableEq α] (l : List α) :
    (dropDuplicates l).Nodup :=
  nodup_dropDupsAux l []

theorem perm_dropDuplicates {α : Type} [DecidableEq α] {l₁ l₂ : List α}
    (h : l₁.Perm l₂) : (dropDuplicates l₁).Perm (dropDuplicates l₂) :=
  (List.perm_ext_iff_of_nodup (nodup_dropDuplicates l₁) (nodup_dropDuplicates l₂)).mpr
    fun a => by rw [mem_dropDuplicates, mem_dropDuplicates, h.mem_iff]

/-! ### Properties of the sorted pivot axes -/

theorem mem_sortedKeys (l : List Nat) (x : Nat) : x ∈ sortedKeys l ↔ x ∈ l := by
  rw [sortedKeys, (List.perm_insertionSort _ _).mem_iff, mem_dropDuplicates]

theorem sortedKeys_perm {l₁ l₂ : List Nat} (h : l₁.Perm l₂) :
    sortedKeys l₁ = sortedKeys l₂ := by
  apply List.eq_of_perm_of_sorted (r := (· ≤ · : Nat → Nat → Prop))
  · exact (List.perm_insertionSort _ _).trans
      ((perm_dropDuplicates h).trans (List.perm_insertionSort _ _).symm)
  · exact List.sorted_insertionSort _ _
  · exact List.sorted_insertionSort _ _

/-! ### Conflicting closes and the pivot lookup -/

theorem hasConflict_eq_true_iff (l : List Obs) :
    hasConflict l = true ↔
      ∃ o ∈ l, ∃ p ∈ l, o.date = p.date ∧ o.stock_id = p.stock_id ∧ o.close ≠ p.close := by
  simp [hasConflict, List.any_eq_true, and_assoc]

theorem hasConflict_eq_false_iff (l : List Obs) :
    hasConflict l = false ↔
      ∀ o ∈ l, ∀ p ∈ l, o.date = p.date → o.stock_id = p.stock_id → o.close = p.close := by
  rw [← Bool.not_eq_true, hasConflict_eq_true_iff]
  push_neg
  rfl

theorem hasConflict_perm {l₁ l₂ : List Obs} (h : l₁.Perm l₂) :
    hasConflict l₁ = hasConflict l₂ := by
  rw [Bool.eq_iff_iff, hasConflict_eq_true_iff, hasConflict_eq_true_iff]
  constructor
  · rintro ⟨o, ho, p, hp, hh⟩; exact ⟨o, h.mem_iff.mp ho, p, h.mem_iff.mp hp, hh⟩
  · rintro ⟨o, ho, p, hp, hh⟩; exact ⟨o, h.mem_iff.mpr ho, p, h.mem_iff.mpr hp, hh⟩

theorem lookupClose_eq_some (l : List Obs) (o : Obs) (ho : o ∈ l)
    (hnc : hasConflict l = false) :
    lookupClose l o.date o.stock_id = some o.close := by
  have hex : ∃ x ∈ l, (x.date == o.date && x.stock_id == o.stock_id) = true :=
    ⟨o, ho, by simp⟩
  obtain ⟨p, hp⟩ := Option.isSome_iff_exists.mp (List.find?_isSome.mpr hex)
  have hpl := List.mem_of_find?_eq_some hp
  have hpp := List.find?_some hp
  simp only [Bool.and_eq_true, beq_iff_eq] at hpp
  have hcl := (hasConflict_eq_false_iff l).mp hnc p hpl o ho hpp.1 hpp.2
  simp [lookupClose, hp, hcl]

theorem lookupClose_perm {l₁ l₂ : List Obs} (h : l₁.Perm l₂)
    (hnc : hasConflict l₂ = false) (d : Nat) (s : StockId) :
    lookupClose l₁ d s = lookupClose l₂ d s := by
  cases h1 : l₁.find? (fun o => o.date == d && o.stock_id == s) with
  | none =>
    have hnone := List.find?_eq_none.mp h1
    have h2 : l₂.find? (fun o => o.date == d && o.stock_id == s) = none :=
      List.find?_eq_none.mpr fun x hx => hnone x (h.mem_iff.mpr hx)
    simp [lookupClose, h1, h2]
  | some o =>
    have ho1 := List.mem_of_find?_eq_some h1
    have hpo := List.find?_some h1
    simp only [Bool.and_eq_true, beq_iff_eq] at hpo
    have ho2 : o ∈ l₂ := h.mem_iff.mp ho1
    have hr := lookupClose_eq_some l₂ o ho2 hnc
    have hl1 : lookupClose l₁ d s = some o.close := by simp [lookupClose, h1]
    rw [hl1, ← hpo.1, ← hpo.2, hr]

/-! ### The pivot as a function of the observation multiset -/

theorem pivotTable_perm (l₁ l₂ : List Obs) (h : l₁.Perm l₂) :
    pivotTable l₁ = pivotTable l₂ := by
  have hdd : (dropDuplicates l₁).Perm (dropDuplicates l₂) := perm_dropDuplicates h
  have hc : hasConflict (dropDuplicates l₁) = hasConflict (dropDuplicates l₂) :=
    hasConflict_perm hdd
  cases hc1 : hasConflict (dropDuplicates l₁) with
  | true =>
    have hc2 : hasConflict (dropDuplicates l₂) = true := by rw [← hc]; exact hc1
    simp [pivotTable, hc1, hc2]
  | false =>
    have hc2 : hasConflict (dropDuplicates l₂) = false := by rw [← hc]; exact hc1
    have hds : sortedKeys ((dropDuplicates l₁).map (·.date))
        = sortedKeys ((dropDuplicates l₂).map (·.date)) := sortedKeys_perm (hdd.map _)
    have hcs : sortedKeys ((dropDuplicates l₁).map (·.stock_id))
        = sortedKeys ((dropDuplicates l₂).map (·.stock_id)) := sortedKeys_perm (hdd.map _)
    have hlook : ∀ (d : Nat) (s : StockId),
        lookupClose (dropDuplicates l₁) d s = lookupClose (dropDuplicates l₂) d s :=
      fun d s => lookupClose_perm hdd hc2 d s
    simp only [pivotTable, hc1, hc2, Bool.false_eq_true, if_false, hds, hcs, hlook]

theorem pivotTable_some_elim {l : List Obs} {M : WideMatrix} (h : pivotTable l = some M) :
    hasConflict (dropDuplicates l) = false ∧
    M = ⟨sortedKeys ((dropDuplicates l).map (·.date)),
         sortedKeys ((dropDuplicates l).map (·.stock_id)),
         (sortedKeys ((dropDuplicates l).map (·.date))).map fun d =>
           (sortedKeys ((dropDuplicates l).map (·.stock_id))).map fun s =>
             lookupClose (dropDuplicates l) d s⟩ := by
  simp only [pivotTable] at h
  split at h
  · exact absurd h (by simp)
  · rename_i hc
    exact ⟨Bool.eq_false_iff.mpr hc, (Option.some.inj h).symm⟩

theorem find?_zip_map {β : Type} (ds : List Nat) (f : Nat → β) (d : Nat) (hd : d ∈ ds) :
    (ds.zip (ds.map f)).find? (fun p => p.1 == d) = some (d, f d) := by
  induction ds with
  | nil => simp at hd
  | cons a rest ih =>
    rw [List.map_cons, List.zip_cons_cons]
    by_cases had : a = d
    · subst had
      rw [List.find?_cons_of_pos _ (by simp)]
    · rw [List.find?_cons_of_neg _ (by simp [had])]
      refine ih ?_
      rcases List.mem_cons.mp hd with rfl | hmem
      · exact absurd rfl had
      · exact hmem

theorem cellAt_mk (ds cs : List Nat) (g : Nat → StockId → Option Rat) (d : Nat) (s : StockId)
    (hd : d ∈ ds) (hs : s ∈ cs) :
    cellAt ⟨ds, cs, ds.map fun x => cs.map fun y => g x y⟩ d s = g d s := by
  have h1 : (ds.zip (ds.map fun x => cs.map fun y => g x y)).find? (fun p => p.1 == d)
      = some (d, cs.map fun y => g d y) := find?_zip_map ds _ d hd
  have h2 : (cs.zip (cs.map fun y => g d y)).find? (fun q => q.1 == s) = some (s, g d s) :=
    find?_zip_map cs _ s hs
  simp [cellAt, h1, h2]

/-! ### Forward fill and the rolling window -/

theorem length_ffillAux (s : List (Option Rat)) :
    ∀ last, (ffillAux last s).length = s.length := by
  induction s with
  | nil => intro last; rfl
  | cons o rest ih =>
    intro last
    cases o <;> simp [ffillAux, ih]

theorem ffillAux_some_getD_ne_none (s : List (Option Rat)) :
    ∀ (v : Rat) (t : Nat), t < s.length → (ffillAux (some v) s).getD t none ≠ none := by
  induction s with
  | nil => intro v t ht; simp at ht
  | cons o rest ih =>
    intro v t ht
    cases o with
    | none =>
      cases t with
      | zero => simp [ffillAux]
      | succ t => simpa [ffillAux] using ih v t (by simpa using ht)
    | some w =>
      cases t with
      | zero => simp [ffillAux]
      | succ t => simpa [ffillAux] using ih w t (by simpa using ht)

theorem ffill_prefix_none (s : List (Option Rat)) :
    ∀ t : Nat, t < s.length → (ffillSeries s).getD t none = none →
      ∀ x ∈ (ffillSeries s).take (t + 1), x = none := by
  unfold ffillSeries
  induction s with
  | nil => intro t ht; simp at ht
  | cons o rest ih =>
    intro t ht hnone x hx
    cases o with
    | none =>
      rw [show ffillAux none (none :: rest) = none :: ffillAux none rest from rfl] at hnone hx
      cases t with
      | zero => simpa using hx
      | succ t =>
        rw [List.getD_cons_succ] at hnone
        rw [List.take_succ_cons, List.mem_cons] at hx
        rcases hx with rfl | hx
        · rfl
        · exact ih t (by simpa using ht) hnone x hx
    | some w =>
      rw [show ffillAux none (some w :: rest) = some w :: ffillAux (some w) rest from rfl]
        at hnone hx
      cases t with
      | zero => simp at hnone
      | succ t =>
        rw [List.getD_cons_succ] at hnone
        exact absurd hnone (ffillAux_some_getD_ne_none rest w t (by simpa using ht))

theorem windowVals_eq_nil_of_getD_none (s : List (Option Rat)) (t : Nat)
    (ht : t < s.length) (hnone : (ffillSeries s).getD t none = none) :
    windowVals (ffillSeries s) t = [] := by
  rw [windowVals, List.filterMap_eq_nil_iff]
  intro a ha
  have hmem : a ∈ (ffillSeries s).take (t + 1) := List.drop_subset _ _ ha
  rw [ffill_prefix_none s t ht hnone a hmem]
  rfl

theorem getD_some_of_window_big (s : List (Option Rat)) (t : Nat) (ht : t < s.length)
    (hlen : 150 ≤ (windowVals (ffillSeries s) t).length) :
    ∃ c, (ffillSeries s).getD t none = some c := by
  cases hg : (ffillSeries s).getD t none with
  | none =>
    rw [windowVals_eq_nil_of_getD_none s t ht hg] at hlen
    simp at hlen
  | some c => exact ⟨c, rfl⟩

theorem close_mem_windowVals (f : List (Option Rat)) (t : Nat) (c : Rat)
    (ht : t < f.length) (hc : f.getD t none = some c) : c ∈ windowVals f t := by
  have hwpos : (1 : Nat) ≤ window := by norm_num [window]
  have hlen : (f.take (t + 1)).length = t + 1 := by
    rw [List.length_take]; omega
  have hidx : t - (t + 1 - window) < ((f.take (t + 1)).drop (t + 1 - window)).length := by
    rw [List.length_drop, hlen]; omega
  refine List.mem_filterMap.mpr ⟨some c, ?_, rfl⟩
  rw [List.mem_iff_getElem]
  refine ⟨t - (t + 1 - window), hidx, ?_⟩
  rw [List.getElem_drop, List.getElem_take]
  have heq : t + 1 - window + (t - (t + 1 - window)) = t := by omega
  simp only [heq]
  rw [← List.getD_eq_getElem f none ht]
  exact hc

theorem max?_const (l : List Rat) (v : Rat) (hne : l ≠ []) (h : ∀ x ∈ l, x = v) :
    l.max? = some v := by
  induction l with
  | nil => exact absurd rfl hne
  | cons x xs ih =>
    have hx : x = v := h x (List.mem_cons_self _ _)
    cases xs with
    | nil => simp [hx]
    | cons y ys =>
      have hm : (y :: ys).max? = some v :=
        ih (by simp) fun z hz => h z (List.mem_cons_of_mem _ hz)
      rw [List.max?_cons, hm]
      simp [hx]

theorem min?_const (l : List Rat) (v : Rat) (hne : l ≠ []) (h : ∀ x ∈ l, x = v) :
    l.min? = some v := by
  induction l with
  | nil => exact absurd rfl hne
  | cons x xs ih =>
    have hx : x = v := h x (List.mem_cons_self _ _)
    cases xs with
    | nil => simp [hx]
    | cons y ys =>
      have hm : (y :: ys).min? = some v :=
        ih (by simp) fun z hz => h z (List.mem_cons_of_mem _ hz)
      rw [List.min?_cons, hm]
      simp [hx]

/-! ### Constant (replicated) series, used to instantiate the window lemmas -/

theorem ffillAux_replicate (v : Rat) :
    ∀ (n : Nat) (last : Option Rat),
      ffillAux last (List.replicate n (some v)) = List.replicate n (some v) := by
  intro n
  induction n with
  | zero => intro last; rfl
  | succ n ih =>
    intro last
    rw [List.replicate_succ]
    rw [show ffillAux last (some v :: List.replicate n (some v))
        = some v :: ffillAux (some v) (List.replicate n (some v)) from rfl]
    rw [ih]

theorem filterMap_id_replicate (n : Nat) (v : Rat) :
    (List.replicate n (some v)).filterMap id = List.replicate n v := by
  induction n with
  | zero => rfl
  | succ n ih => simp [List.replicate_succ, List.filterMap_cons, ih]

theorem windowVals_replicate150 (v : Rat) :
    windowVals (ffillSeries (List.replicate 150 (some v))) 149 = List.replicate 150 v := by
  rw [ffillSeries, ffillAux_replicate, windowVals]
  rw [show (149 + 1 : Nat) = 150 from rfl]
  rw [List.take_replicate]
  rw [show (150 - window : Nat) = 0 from rfl, List.drop_zero]
  rw [show (150 ⊓ 150 : Nat) = 150 from rfl]
  exact filterMap_id_replicate 150 v

theorem rolling_max_replicate150 (v : Rat) :
    rolling_max (ffillSeries (List.replicate 150 (some v))) 149 = some v := by
  rw [rolling_max, windowVals_replicate150, if_pos (by simp)]
  exact max?_const _ v (by simp) fun x hx => List.eq_of_mem_replicate hx

theorem rolling_min_replicate150 (v : Rat) :
    rolling_min (ffillSeries (List.replicate 150 (some v))) 149 = some v := by
  rw [rolling_min, windowVals_replicate150, if_pos (by simp)]
  exact min?_const _ v (by simp) fun x hx => List.eq_of_mem_replicate hx

/-! ### The claims -/

/-- C1: every row of the reporting table carries
ratio = round(new_highs / new_lows × 100) whenever new_lows > 0 and the
sentinel 999 whenever new_lows = 0 (the function is total — no exception,
no infinity); in particular highs=5, lows=0 gives 999 and highs=20,
lows=10 gives 200. -/
theorem claim_ratio_policy :
    (∀ (rows : List BreadthRow) (tr : TableRow), tr ∈ mkTable rows →
       (0 < tr.lows → tr.ratio = pythonRound ((tr.highs : Rat) / (tr.lows : Rat) * 100)) ∧
       (tr.lows = 0 → tr.ratio = 999)) ∧
    ratioOf 5 0 = 999 ∧ ratioOf 20 10 = 200 := by
  refine ⟨?_, by simp [ratioOf], by norm_num [ratioOf, pythonRound]⟩
  intro rows tr htr
  rw [mkTable, List.mem_reverse, List.mem_map] at htr
  obtain ⟨r, hr, rfl⟩ := htr
  constructor
  · intro hpos
    simp only [TableRow.mk.injEq] at hpos ⊢
    simp [ratioOf, hpos]
  · intro hz
    simp only [TableRow.mk.injEq] at hz ⊢
    simp [ratioOf, hz]

/-- Witness for C1: a concrete one-row table for each branch of the
ratio policy. -/
theorem claim_ratio_policy_witness :
    ((⟨3, 5, 0, 999⟩ : TableRow) ∈ mkTable [⟨3, 5, 0, none⟩] ∧
      (⟨3, 5, 0, 999⟩ : TableRow).ratio = 999) ∧
    ((⟨4, 20, 10, 200⟩ : TableRow) ∈ mkTable [⟨4, 20, 10, none⟩] ∧
      (⟨4, 20, 10, 200⟩ : TableRow).ratio
        = pythonRound (((20 : Nat) : Rat) / ((10 : Nat) : Rat) * 100)) := by
  have hm1 : (⟨3, 5, 0, 999⟩ : TableRow) ∈ mkTable [⟨3, 5, 0, none⟩] := by decide
  have hm2 : (⟨4, 20, 10, 200⟩ : TableRow) ∈ mkTable [⟨4, 20, 10, none⟩] := by
    have : ratioOf 20 10 = 200 := by norm_num [ratioOf, pythonRound]
    simp [mkTable, lastN, this]
  exact ⟨⟨hm1, (claim_ratio_policy.1 [⟨3, 5, 0, none⟩] _ hm1).2 rfl⟩,
         ⟨hm2, (claim_ratio_policy.1 [⟨4, 20, 10, none⟩] _ hm2).1 (by norm_num)⟩⟩

/-- C2: wherever the 200-day rolling extrema (min_periods 150) are
defined on a forward-filled column, the close is defined too, and the
instrument is flagged a new high exactly when close ≥ rolling max and a
new low exactly when close ≤ rolling min (ties count). -/
theorem claim_new_high_new_low_iff (s : List (Option Rat)) (t : Nat) (ht : t < s.length) :
    (∀ m, rolling_max (ffillSeries s) t = some m →
       ∃ c, (ffillSeries s).getD t none = some c ∧
         (is_new_high (ffillSeries s) t = true ↔ m ≤ c)) ∧
    (∀ m, rolling_min (ffillSeries s) t = some m →
       ∃ c, (ffillSeries s).getD t none = some c ∧
         (is_new_low (ffillSeries s) t = true ↔ c ≤ m)) := by
  constructor
  · intro m hm
    have hwin : 150 ≤ (windowVals (ffillSeries s) t).length := by
      by_contra hcon
      rw [rolling_max, if_neg hcon] at hm
      exact Option.noConfusion hm
    obtain ⟨c, hc⟩ := getD_some_of_window_big s t ht hwin
    have hc2 : (ffillSeries s)[t]?.getD none = some c := by simpa using hc
    exact ⟨c, hc, by simp [is_new_high, hc2, hm]⟩
  · intro m hm
    have hwin : 150 ≤ (windowVals (ffillSeries s) t).length := by
      by_contra hcon
      rw [rolling_min, if_neg hcon] at hm
      exact Option.noConfusion hm
    obtain ⟨c, hc⟩ := getD_some_of_window_big s t ht hwin
    have hc2 : (ffillSeries s)[t]?.getD none = some c := by simpa using hc
    exact ⟨c, hc, by simp [is_new_low, hc2, hm]⟩

/-- Witness for C2 at a concrete constant 150-day series. -/
theorem claim_new_high_new_low_iff_witness :
    (149 < (List.replicate 150 (some (1 : Rat))).length) ∧
    rolling_max (ffillSeries (List.replicate 150 (some (1 : Rat)))) 149 = some 1 ∧
    rolling_min (ffillSeries (List.replicate 150 (some (1 : Rat)))) 149 = some 1 ∧
    (∃ c, (ffillSeries (List.replicate 150 (some (1 : Rat)))).getD 149 none = some c ∧
       (is_new_high (ffillSeries (List.replicate 150 (some (1 : Rat)))) 149 = true ↔ 1 ≤ c)) ∧
    (∃ c, (ffillSeries (List.replicate 150 (some (1 : Rat)))).getD 149 none = some c ∧
       (is_new_low (ffillSeries (List.replicate 150 (some (1 : Rat)))) 149 = true ↔ c ≤ 1)) := by
  refine ⟨by simp, rolling_max_replicate150 1, rolling_min_replicate150 1, ?_, ?_⟩
  · exact (claim_new_high_new_low_iff (List.replicate 150 (some 1)) 149 (by simp)).1 1
      (rolling_max_replicate150 1)
  · exact (claim_new_high_new_low_iff (List.replicate 150 (some 1)) 149 (by simp)).2 1
      (rolling_min_replicate150 1)

/-- C3: when, after dropping all-empty columns, the assembled matrix has
fewer than the configured minimum of 100 instrument columns, the run
stops with the InsufficientCoverage diagnostic before any indicator
computation, so no breadth row and no report artifact is produced. -/
theorem claim_coverage_gate (univ : List StockId) (results : List FetchResult)
    (taiex : List (Nat × Rat)) (M0 : WideMatrix)
    (hdl : download_by_month univ results = some M0)
    (hcols : (dropEmptyCols M0).cols.length < 100) :
    runPipeline univ results taiex = .error .insufficientCoverage := by
  unfold runPipeline
  rw [hdl]
  simp [hcols]

/-- An 80-instrument observation set: one trading day, 80 tickers. -/
def obs80 : List Obs := (List.range 80).map fun i => ⟨1, i, 7⟩

/-- The corresponding 80-ticker universe. -/
def univ80 : List StockId := List.range 80

/-- The matrix the assembler produces for `obs80`. -/
def M80 : WideMatrix := ⟨[1], List.range 80, [List.replicate 80 (some 7)]⟩

/-- Witness for C3: with 80 instrument columns and the configured minimum
of 100, the run ends in InsufficientCoverage and yields no breadth rows. -/
theorem claim_coverage_gate_witness :
    download_by_month univ80 [.success obs80] = some M80 ∧
    (dropEmptyCols M80).cols.length = 80 ∧
    runPipeline univ80 [.success obs80] [] = .error .insufficientCoverage := by
  refine ⟨by decide, by decide, ?_⟩
  exact claim_coverage_gate univ80 [.success obs80] [] M80 (by decide) (by decide)

/-- C4 (amended): the breadth frame has exactly one row per trading date
of the wide matrix — warmup dates included, since the integer-valued
counts are never dropped by the `dropna` step; on warmup dates the
counts are simply 0. -/
theorem claim_breadth_row_per_date (M : WideMatrix) (taiex : List (Nat × Rat)) :
    (market_breadth M taiex).map (·.date) = M.dates := by
  have h : (market_breadth M taiex).map (·.date) = M.dates.enum.map Prod.snd := by
    simp only [market_breadth, List.map_map]
    rfl
  rw [h, List.enum_map_snd]

/-- C4 counterexample: a matrix with a single trading day of history.  No
instrument's rolling extrema are defined on that day (1 < 150
observations), yet a breadth row for it is still produced — refuting
"no breadth row is produced for warmup dates". -/
theorem claim_breadth_row_per_date_counterexample :
    market_breadth ⟨[5], [7], [[some 3]]⟩ [] = [⟨5, 0, 0, none⟩] ∧
    (∀ s ∈ (colSeriesList ⟨[5], [7], [[some 3]]⟩).map ffillSeries,
       rolling_max s 0 = none ∧ rolling_min s 0 = none) := by decide

/-- C5: every breadth row's counts satisfy
0 ≤ new_highs ≤ #columns and 0 ≤ new_lows ≤ #columns (they are sums of
booleans over the instrument columns, hence non-negative integers). -/
theorem claim_breadth_bounds (M : WideMatrix) (taiex : List (Nat × Rat)) (r : BreadthRow)
    (hr : r ∈ market_breadth M taiex) :
    r.newHighs ≤ M.cols.length ∧ r.newLows ≤ M.cols.length := by
  simp only [market_breadth, List.mem_map] at hr
  obtain ⟨p, hp, rfl⟩ := hr
  constructor <;>
    · refine le_trans (List.count_le_length _ _) ?_
      simp [colSeriesList]

/-- Witness for C5 on a one-column, one-day matrix. -/
theorem claim_breadth_bounds_witness :
    ((⟨9, 0, 0, none⟩ : BreadthRow) ∈ market_breadth ⟨[9], [2], [[some 4]]⟩ []) ∧
    (⟨9, 0, 0, none⟩ : BreadthRow).newHighs ≤ (⟨[9], [2], [[some 4]]⟩ : WideMatrix).cols.length ∧
    (⟨9, 0, 0, none⟩ : BreadthRow).newLows ≤ (⟨[9], [2], [[some 4]]⟩ : WideMatrix).cols.length := by
  have hm : (⟨9, 0, 0, none⟩ : BreadthRow) ∈ market_breadth ⟨[9], [2], [[some 4]]⟩ [] := by
    decide
  obtain ⟨h1, h2⟩ := claim_breadth_bounds ⟨[9], [2], [[some 4]]⟩ [] _ hm
  exact ⟨hm, h1, h2⟩

/-- C6: exact-duplicate observations arriving from overlapping fetch
units are merged into exactly one occurrence before the pivot, and a
duplicated observation ends up in exactly one cell of the wide matrix;
concretely, two units both returning (date 2024-03-01, instrument 1,
close 10.5) yield a matrix holding that value once. -/
theorem claim_duplicate_tolerance :
    (∀ (l : List Obs) (o : Obs), o ∈ l → (dropDuplicates l).count o = 1) ∧
    download_by_month [1]
        [.success [⟨20240301, 1, mkRat 21 2⟩], .success [⟨20240301, 1, mkRat 21 2⟩]]
      = some ⟨[20240301], [1], [[some (mkRat 21 2)]]⟩ ∧
    cellAt ⟨[20240301], [1], [[some (mkRat 21 2)]]⟩ 20240301 1 = some (mkRat 21 2) := by
  refine ⟨?_, by decide, by decide⟩
  intro l o ho
  exact List.count_eq_one_of_mem (nodup_dropDuplicates l) ((mem_dropDuplicates l o).mpr ho)

/-- Witness for C6: the duplicated observation is counted once after
deduplication. -/
theorem claim_duplicate_tolerance_witness :
    ((⟨20240301, 1, mkRat 21 2⟩ : Obs) ∈
        [(⟨20240301, 1, mkRat 21 2⟩ : Obs), ⟨20240301, 1, mkRat 21 2⟩]) ∧
    (dropDuplicates
        [(⟨20240301, 1, mkRat 21 2⟩ : Obs), ⟨20240301, 1, mkRat 21 2⟩]).count
      ⟨20240301, 1, mkRat 21 2⟩ = 1 :=
  ⟨by decide, claim_duplicate_tolerance.1 _ _ (by decide)⟩

/-- C7: the Matrix Assembler (dedup, pivot, date index, drop of all-empty
columns) is a pure function of the observation multiset: assembling any
two permutations of the same observation list — duplicated rows
included — yields identical WideMatrix content. -/
theorem claim_assembler_pure (l₁ l₂ : List Obs) (h : l₁.Perm l₂) :
    assembleFull l₁ = assembleFull l₂ := by
  rw [assembleFull, assembleFull, pivotTable_perm l₁ l₂ h]

/-- Witness for C7 on a concrete three-row multiset with a duplicate. -/
theorem claim_assembler_pure_witness :
    ([⟨1, 2, 3⟩, ⟨1, 2, 3⟩, ⟨4, 5, 6⟩] : List Obs).Perm
        [⟨4, 5, 6⟩, ⟨1, 2, 3⟩, ⟨1, 2, 3⟩] ∧
    assembleFull [⟨1, 2, 3⟩, ⟨1, 2, 3⟩, ⟨4, 5, 6⟩]
      = assembleFull [⟨4, 5, 6⟩, ⟨1, 2, 3⟩, ⟨1, 2, 3⟩] := by
  have hp : ([⟨1, 2, 3⟩, ⟨1, 2, 3⟩, ⟨4, 5, 6⟩] : List Obs).Perm
      [⟨4, 5, 6⟩, ⟨1, 2, 3⟩, ⟨1, 2, 3⟩] := by decide
  exact ⟨hp, claim_assembler_pure _ _ hp⟩

/-- C8: a failing acquisition unit contributes nothing and the loop
continues with the remaining units unchanged; the scheduler never
propagates a per-unit failure, and if every unit fails it returns the
empty table. -/
theorem claim_unit_failure_tolerance :
    (∀ univ : List StockId, unitContribution univ .failure = none) ∧
    (∀ (univ : List StockId) (rs₁ rs₂ : List FetchResult),
       download_by_month univ (rs₁ ++ .failure :: rs₂)
         = download_by_month univ (rs₁ ++ rs₂)) ∧
    (∀ (univ : List StockId) (rs : List FetchResult), (∀ r ∈ rs, r = .failure) →
       download_by_month univ rs = some emptyMatrix) := by
  refine ⟨fun univ => rfl, ?_, ?_⟩
  · intro univ rs₁ rs₂
    simp [download_by_month, List.filterMap_append, List.filterMap_cons, unitContribution]
  · intro univ rs hall
    have hnil : rs.filterMap (unitContribution univ) = [] :=
      List.filterMap_eq_nil_iff.mpr fun r hr => by rw [hall r hr]; rfl
    simp [download_by_month, hnil]

/-- Witness for C8 on concrete unit lists. -/
theorem claim_unit_failure_tolerance_witness :
    unitContribution [1] .failure = none ∧
    download_by_month [1] ([.success [⟨1, 1, 2⟩]] ++ .failure :: [])
      = download_by_month [1] ([.success [⟨1, 1, 2⟩]] ++ []) ∧
    (∀ r ∈ ([.failure, .failure] : List FetchResult), r = .failure) ∧
    download_by_month [1] [.failure, .failure] = some emptyMatrix :=
  ⟨claim_unit_failure_tolerance.1 [1],
   claim_unit_failure_tolerance.2.1 [1] [.success [⟨1, 1, 2⟩]] [],
   by decide,
   claim_unit_failure_tolerance.2.2 [1] [.failure, .failure] (by decide)⟩

/-- C9: the new-high and new-low sets are not disjoint: on a day where
the rolling window is defined and every observed close in the trailing
window equals the same value (a constant column, as forward-fill
produces for a frozen instrument), the instrument is counted both as a
new high and as a new low. -/
theorem claim_constant_column_both (s : List (Option Rat)) (t : Nat) (v : Rat)
    (ht : t < s.length)
    (hlen : 150 ≤ (windowVals (ffillSeries s) t).length)
    (hall : ∀ x ∈ windowVals (ffillSeries s) t, x = v) :
    is_new_high (ffillSeries s) t = true ∧ is_new_low (ffillSeries s) t = true := by
  obtain ⟨c, hc⟩ := getD_some_of_window_big s t ht hlen
  have htf : t < (ffillSeries s).length := by rw [ffillSeries, length_ffillAux]; exact ht
  have hcmem : c ∈ windowVals (ffillSeries s) t := close_mem_windowVals _ t c htf hc
  have hcv : c = v := hall c hcmem
  have hne : windowVals (ffillSeries s) t ≠ [] := by
    intro hnil
    rw [hnil] at hlen
    simp at hlen
  have hmax : rolling_max (ffillSeries s) t = some v := by
    rw [rolling_max, if_pos hlen]
    exact max?_const _ v hne hall
  have hmin : rolling_min (ffillSeries s) t = some v := by
    rw [rolling_min, if_pos hlen]
    exact min?_const _ v hne hall
  have hc2 : (ffillSeries s)[t]?.getD none = some c := by simpa using hc
  subst hcv
  exact ⟨by simp [is_new_high, hc2, hmax], by simp [is_new_low, hc2, hmin]⟩

/-- Witness for C9 on a concrete constant 150-day series. -/
theorem claim_constant_column_both_witness :
    (149 < (List.replicate 150 (some (2 : Rat))).length) ∧
    150 ≤ (windowVals (ffillSeries (List.replicate 150 (some (2 : Rat)))) 149).length ∧
    (∀ x ∈ windowVals (ffillSeries (List.replicate 150 (some (2 : Rat)))) 149, x = 2) ∧
    is_new_high (ffillSeries (List.replicate 150 (some (2 : Rat)))) 149 = true ∧
    is_new_low (ffillSeries (List.replicate 150 (some (2 : Rat)))) 149 = true := by
  have hw := windowVals_replicate150 (2 : Rat)
  have hlen :
      150 ≤ (windowVals (ffillSeries (List.replicate 150 (some (2 : Rat)))) 149).length := by
    rw [hw]; simp
  have hall : ∀ x ∈ windowVals (ffillSeries (List.replicate 150 (some (2 : Rat)))) 149,
      x = 2 := by
    rw [hw]; exact fun x hx => List.eq_of_mem_replicate hx
  obtain ⟨h1, h2⟩ := claim_constant_column_both _ 149 2 (by simp) hlen hall
  exact ⟨by simp, hlen, hall, h1, h2⟩

/-- C10: the pivot succeeds only when close is a function of
(date, instrument): two observations sharing the key but not the close
make assembly fail with no matrix; and on success, the cell at each
observation's (date, instrument) pair holds exactly its close. -/
theorem claim_pivot_conflict :
    (∀ (l : List Obs) (o p : Obs), o ∈ l → p ∈ l → o.date = p.date →
       o.stock_id = p.stock_id → o.close ≠ p.close → pivotTable l = none) ∧
    (∀ (l : List Obs) (M : WideMatrix), pivotTable l = some M →
       ∀ o ∈ l, cellAt M o.date o.stock_id = some o.close) := by
  constructor
  · intro l o p ho hp hd hs hc
    have hconf : hasConflict (dropDuplicates l) = true :=
      (hasConflict_eq_true_iff _).mpr
        ⟨o, (mem_dropDuplicates l o).mpr ho, p, (mem_dropDuplicates l p).mpr hp, hd, hs, hc⟩
    simp [pivotTable, hconf]
  · intro l M hM o ho
    obtain ⟨hnc, rfl⟩ := pivotTable_some_elim hM
    have hodd : o ∈ dropDuplicates l := (mem_dropDuplicates l o).mpr ho
    have hd : o.date ∈ sortedKeys ((dropDuplicates l).map (·.date)) := by
      rw [mem_sortedKeys]
      exact List.mem_map.mpr ⟨o, hodd, rfl⟩
    have hs : o.stock_id ∈ sortedKeys ((dropDuplicates l).map (·.stock_id)) := by
      rw [mem_sortedKeys]
      exact List.mem_map.mpr ⟨o, hodd, rfl⟩
    rw [cellAt_mk _ _ _ _ _ hd hs]
    exact lookupClose_eq_some _ o hodd hnc

/-- Witness for C10: a conflicting pair makes the pivot fail; a clean
singleton pivots and its cell is the observed close. -/
theorem claim_pivot_conflict_witness :
    ((⟨1, 1, 1⟩ : Obs) ∈ [(⟨1, 1, 1⟩ : Obs), ⟨1, 1, 2⟩]) ∧
    ((⟨1, 1, 2⟩ : Obs) ∈ [(⟨1, 1, 1⟩ : Obs), ⟨1, 1, 2⟩]) ∧
    pivotTable [(⟨1, 1, 1⟩ : Obs), ⟨1, 1, 2⟩] = none ∧
    pivotTable [(⟨7, 3, 5⟩ : Obs)] = some ⟨[7], [3], [[some 5]]⟩ ∧
    cellAt ⟨[7], [3], [[some 5]]⟩ 7 3 = some 5 := by
  refine ⟨by decide, by decide, ?_, by decide, ?_⟩
  · exact claim_pivot_conflict.1 _ ⟨1, 1, 1⟩ ⟨1, 1, 2⟩ (by decide) (by decide) rfl rfl
      (by decide)
  · exact claim_pivot_conflict.2 [(⟨7, 3, 5⟩ : Obs)] ⟨[7], [3], [[some 5]]⟩ (by decide)
      ⟨7, 3, 5⟩ (by decide)

end DailyBreadth
